import Mathlib

/-!
Shallow embedding of the detection post-processing pipeline of
`yolo_detect.py` (caffe-yolo): `get_boxes`, `parse_yolo_output`,
`get_candidate_objects` and `iou`.

Modelling choices:
* Machine floats are modelled by exact rationals `ℚ`.  Because the library
  marks `Rat.add`, `Rat.mul`, `Rat.sub` and `Rat.inv` irreducible (so the
  kernel cannot evaluate them on concrete inputs), the embedding computes
  with `qAdd`, `qMul`, `qSub`, `qDiv`, which are proved below to be equal to
  `+`, `*`, `-`, `/` on `ℚ`.  `qDiv x 0 = 0`, standing in for the IEEE
  non-finite result of the source's unguarded float division by zero.
* A numpy array is modelled by the flat list of its entries in row-major
  (C-order) layout; `np.reshape` of a slice to a known size becomes the
  length check `npReshape` (numpy raises `ValueError` on a size mismatch,
  modelled by the error value `YoloErr.ShapeMismatch`).
* In `get_boxes` the source reshapes a slice of the caller's buffer, which
  yields a *view*, and then updates it with six in-place statements
  (`+=`, `/=`, `*=`); so the call also overwrites the geometry region of the
  caller's buffer.  The embedding makes that observable effect explicit:
  `get_boxes` returns the transformed region alongside the box list, and
  `parse_yolo_output` returns the caller's whole buffer as it stands after
  the call (unchanged prefix ++ transformed geometry region).
* `np.argsort(...)` ascending is modelled as a stable insertion sort (the
  behaviour numpy exhibits on the small candidate arrays that arise here);
  the source then reverses it with `[::-1]`.
* `np.argmax` over a boolean mask is `firstTrueIdx`, the index of the first
  `True` (or `0` when there is none).
* List lengths on the kernel-evaluation path use the tail-recursive
  `listLen` (equal to `List.length`), because the kernel reduces tail
  recursion in constant stack space.
-/

set_option maxRecDepth 16000

namespace Yolo

/-- Kernel-computable addition on `ℚ` (equal to `+`, see `qAdd_eq`). -/
def qAdd (a b : ℚ) : ℚ := Rat.divInt (a.num * b.den + b.num * a.den) (a.den * b.den)

/-- Kernel-computable multiplication on `ℚ` (equal to `*`, see `qMul_eq`). -/
def qMul (a b : ℚ) : ℚ := Rat.divInt (a.num * b.num) (a.den * b.den)

/-- Kernel-computable subtraction on `ℚ` (equal to `-`, see `qSub_eq`). -/
def qSub (a b : ℚ) : ℚ := Rat.divInt (a.num * b.den - b.num * a.den) (a.den * b.den)

/-- Kernel-computable division on `ℚ` (equal to `/`, see `qDiv_eq`);
`qDiv a 0 = 0`. -/
def qDiv (a b : ℚ) : ℚ := Rat.divInt (a.num * b.den) (a.den * b.num)

/-- Tail-recursive list length accumulator. -/
def lenAcc {α : Type} : Nat → List α → Nat
  | n, [] => n
  | n, _ :: xs => lenAcc (n + 1) xs

/-- Tail-recursive list length, equal to `List.length` (`listLen_eq`). -/
def listLen {α : Type} (l : List α) : Nat := lenAcc 0 l

/-- A decoded bounding box; fields `x y w h` are `box[0] .. box[3]` of the
source. -/
structure Box where
  x : ℚ
  y : ℚ
  w : ℚ
  h : ℚ
deriving DecidableEq

/-- One thresholded entry of the score tensor: the class id the code attaches
to it (`classes_num_filtered`), its box geometry (`boxes_filtered`) and its
fused score (`probs_filtered`). -/
structure Candidate where
  classId : Nat
  box : Box
  score : ℚ
deriving DecidableEq

/-- One row of the `result` list built at the end of
`get_candidate_objects`: `[classes[class_id], box[0], box[1], box[2],
box[3], prob]`. -/
structure Detection where
  label : String
  x : ℚ
  y : ℚ
  w : ℚ
  h : ℚ
  score : ℚ
deriving DecidableEq

/-- Typed stand-in for the `ValueError` numpy raises when a reshape target
size disagrees with the data. -/
inductive YoloErr where
  | ShapeMismatch
deriving DecidableEq

instance {ε α : Type} [DecidableEq ε] [DecidableEq α] : DecidableEq (Except ε α) := fun a b =>
  match a, b with
  | .error e, .error f =>
    if h : e = f then .isTrue (by rw [h]) else .isFalse (by intro hc; cases hc; exact h rfl)
  | .error _, .ok _ => .isFalse (by intro hc; cases hc)
  | .ok _, .error _ => .isFalse (by intro hc; cases hc)
  | .ok v, .ok w =>
    if h : v = w then .isTrue (by rw [h]) else .isFalse (by intro hc; cases hc; exact h rfl)

/-- Model of `np.reshape(data, shape)` for a known flat size: succeed with
the row-major data iff the element count matches, like numpy's `ValueError`
on mismatch (no truncation, no padding). -/
def npReshape (l : List ℚ) (n : Nat) : Except YoloErr (List ℚ) :=
  if listLen l = n then .ok l else .error .ShapeMismatch

/-- Elementwise update of a flat buffer where the new value may depend on
the flat index: the shape numpy's broadcasted in-place statements take on a
row-major flat view.  The first argument is the index of the list head. -/
def mapWithIdx (f : Nat → ℚ → ℚ) : Nat → List ℚ → List ℚ
  | _, [] => []
  | i, v :: vs => f i v :: mapWithIdx f (i + 1) vs

/-- Reading a `(..., 4)`-shaped row-major region as a list of boxes. -/
def toBoxes : List ℚ → List Box
  | x :: y :: w :: h :: rest => ⟨x, y, w, h⟩ :: toBoxes rest
  | _ => []

/-- The six in-place statements of `get_boxes` on the flat geometry region
(row-major axes `[row, col, box, component]`).  For flat index `i`:
component `i % 4`, cell `i / 4 / num_boxes`, column `cell % grid_size`,
row `cell / grid_size`.
Statement order as in the source:
`boxes[:,:,:,0] += offset` (offset value = column index),
`boxes[:,:,:,1] += transpose(offset)` (= row index),
`boxes[:,:,:,0:2] /= 7.0` (the literal `7.0`, not `grid_size`),
`boxes[:,:,:,2:4] *= boxes[:,:,:,2:4]`,
`boxes[:,:,:,[0,2]] *= w_img`, `boxes[:,:,:,[1,3]] *= h_img`. -/
def transformGeom (grid_size num_boxes : Nat) (w_img h_img : ℚ) (g : List ℚ) : List ℚ :=
  let g1 := mapWithIdx (fun i v =>
    if i % 4 = 0 then qAdd v ((i / 4 / num_boxes % grid_size : Nat) : ℚ) else v) 0 g
  let g2 := mapWithIdx (fun i v =>
    if i % 4 = 1 then qAdd v ((i / 4 / num_boxes / grid_size : Nat) : ℚ) else v) 0 g1
  let g3 := mapWithIdx (fun i v => if i % 4 = 0 ∨ i % 4 = 1 then qDiv v 7 else v) 0 g2
  let g4 := mapWithIdx (fun i v => if i % 4 = 2 ∨ i % 4 = 3 then qMul v v else v) 0 g3
  let g5 := mapWithIdx (fun i v => if i % 4 = 0 ∨ i % 4 = 2 then qMul v w_img else v) 0 g4
  mapWithIdx (fun i v => if i % 4 = 1 ∨ i % 4 = 3 then qMul v h_img else v) 0 g5

/-- `get_boxes(output, img_size, grid_size, num_boxes)` of the source:
reshape the geometry slice to `(grid_size, grid_size, num_boxes, 4)` and
apply the in-place coordinate transform.  `img_size` is the image shape
`(height, width)`, read as `w_img, h_img = img_size[1], img_size[0]`.
Because the reshape of a slice is a numpy view, the in-place statements
also rewrite the region of the caller's buffer; the second component of
the result is that region's content after the call. -/
def get_boxes (output : List ℚ) (img_size : ℚ × ℚ) (grid_size num_boxes : Nat) :
    Except YoloErr (List Box × List ℚ) :=
  let w_img := img_size.2
  let h_img := img_size.1
  match npReshape output (grid_size * grid_size * num_boxes * 4) with
  | .error e => .error e
  | .ok g =>
    let t := transformGeom grid_size num_boxes w_img h_img g
    .ok (toBoxes t, t)

/-- Fuel-driven chunking of a flat list into consecutive `k`-blocks: the
row-major reinterpretation of a flat region as an array whose trailing axis
has extent `k`.  Fuel at least `length` makes it total. -/
def chunksFuel (k : Nat) : Nat → List ℚ → List (List ℚ)
  | _, [] => []
  | 0, _ => []
  | fuel + 1, x :: xs => (x :: xs).take k :: chunksFuel k fuel ((x :: xs).drop k)

/-- Split a flat row-major list into its consecutive `k`-blocks. -/
def chunks (k : Nat) (l : List ℚ) : List (List ℚ) := chunksFuel k (listLen l) l

/-- The score fusion loop of `parse_yolo_output`:
`probs[:, :, i, j] = class_probs[:, :, j] * confidences[:, :, i]`.
Inputs are flat row-major `(grid, grid, num_classes)` and
`(grid, grid, num_boxes)` regions; output is the flat row-major
`(grid, grid, num_boxes, num_classes)` score tensor (class fastest). -/
def fuseScores (num_classes num_boxes : Nat) (class_probs confidences : List ℚ) : List ℚ :=
  ((chunks num_classes class_probs).zip (chunks num_boxes confidences)).flatMap fun pc =>
    pc.2.flatMap fun cb => pc.1.map fun pj => qMul pj cb

/-- `parse_yolo_output(output, img_size)` of the source, with its hard-coded
constants `num_classes = 20`, `num_boxes = 2`, `grid_size = 7`.  Returns
`(boxes, probs, buffer_after)` where `probs` is the flat row-major score
tensor and `buffer_after` is the caller's buffer after the call (its
geometry region was rewritten in place through the reshape view inside
`get_boxes`). -/
def parse_yolo_output (output : List ℚ) (img_size : ℚ × ℚ) :
    Except YoloErr (List Box × List ℚ × List ℚ) :=
  let num_classes := 20
  let num_boxes := 2
  let grid_size := 7
  let sc_offset := grid_size * grid_size * num_classes
  let box_offset := sc_offset + grid_size * grid_size * num_boxes
  match npReshape (output.take sc_offset) sc_offset with
  | .error e => .error e
  | .ok class_probs =>
    match npReshape ((output.drop sc_offset).take (grid_size * grid_size * num_boxes))
        (grid_size * grid_size * num_boxes) with
    | .error e => .error e
    | .ok confidences =>
      let probs := fuseScores num_classes num_boxes class_probs confidences
      match get_boxes (output.drop box_offset) img_size grid_size num_boxes with
      | .error e => .error e
      | .ok bt => .ok (bt.1, probs, output.take box_offset ++ bt.2)

/-- The intersection area computed inside `iou` (variables `int_tb`,
`int_lr` and `intersection` of the source; note the crossed axis naming:
the first extent pairs the `x` centers with the `w` sizes). -/
def iouIntersection (box1 box2 : Box) : ℚ :=
  let int_tb := qSub
    (min (qAdd box1.x (qMul (qDiv 1 2) box1.w)) (qAdd box2.x (qMul (qDiv 1 2) box2.w)))
    (max (qSub box1.x (qMul (qDiv 1 2) box1.w)) (qSub box2.x (qMul (qDiv 1 2) box2.w)))
  let int_lr := qSub
    (min (qAdd box1.y (qMul (qDiv 1 2) box1.h)) (qAdd box2.y (qMul (qDiv 1 2) box2.h)))
    (max (qSub box1.y (qMul (qDiv 1 2) box1.h)) (qSub box2.y (qMul (qDiv 1 2) box2.h)))
  qMul (max 0 int_tb) (max 0 int_lr)

/-- `iou(box1, box2)` of the source: an unguarded division.  A zero
denominator is a float division by zero in the source (producing a
non-finite value, not an exception); in this rational model `qDiv _ 0 = 0`. -/
def iou (box1 box2 : Box) : ℚ :=
  qDiv (iouIntersection box1 box2)
    (qSub (qAdd (qMul box1.w box1.h) (qMul box2.w box2.h)) (iouIntersection box1 box2))

/-- The class label table of `get_candidate_objects`. -/
def classes : List String :=
  ["aeroplane", "bicycle", "bird", "boat", "bottle", "bus", "car",
   "cat", "chair", "cow", "diningtable", "dog", "horse", "motorbike",
   "person", "pottedplant", "sheep", "sofa", "train", "tvmonitor"]

/-- Index of the first `true`, if any. -/
def firstTrueIdx : List Bool → Option Nat
  | [] => none
  | true :: _ => some 0
  | false :: bs => (firstTrueIdx bs).map (· + 1)

/-- `np.argmax` on a boolean mask: index of the first `True`, `0` when the
mask is all `False`. -/
def argmaxMask (l : List Bool) : Nat := (firstTrueIdx l).getD 0

/-- The filter step of `get_candidate_objects`, restricted to one
`(row, col, box)` slot whose class scores are `ps` and whose geometry is
`bx`: every class score `>= threshold` yields a candidate, and each
candidate's class id is `np.argmax` of the slot's boolean mask (the first
passing class), exactly as `classes_num_filtered =
np.argmax(filter_mat_probs, axis=3)[filter_mat_boxes]` computes it. -/
def cellCandidates (threshold : ℚ) (ps : List ℚ) (bx : Box) : List Candidate :=
  let cid := argmaxMask (ps.map fun p => decide (threshold ≤ p))
  (ps.filter fun p => decide (threshold ≤ p)).map fun p => ⟨cid, bx, p⟩

/-- The whole filter step: enumerate the score tensor row-major over
`(row, col, box, class)` with class fastest (the order of `np.nonzero` and
of boolean-mask selection), pairing each `(row, col, box)` slot with its
box geometry. -/
def filterCandidates (probs : List ℚ) (boxes : List Box) (threshold : ℚ) : List Candidate :=
  ((chunks 20 probs).zip boxes).flatMap fun pb => cellCandidates threshold pb.1 pb.2

/-- Comparison key of `np.argsort(probs_filtered)`: ascending score. -/
def candLE (a b : Candidate) : Prop := a.score ≤ b.score

instance : DecidableRel candLE := fun a b => inferInstanceAs (Decidable (a.score ≤ b.score))

instance : IsTotal Candidate candLE := ⟨fun a b => le_total a.score b.score⟩

instance : IsTrans Candidate candLE := ⟨fun _ _ _ h1 h2 => le_trans h1 h2⟩

/-- The inner loop of the suppression pass for a fixed survivor `bi`:
`probs_filtered[j] = 0.0` for every later candidate whose IoU with `bi`
exceeds the threshold. -/
def suppress (iou_threshold : ℚ) (bi : Box) (cs : List Candidate) : List Candidate :=
  cs.map fun c => if iou_threshold < iou bi c.box then { c with score := 0 } else c

/-- The non-maximum-suppression double loop of `get_candidate_objects`,
fuel-driven (fuel at least `length` makes it total): candidate `i` is
skipped when its score was already zeroed, and otherwise zeroes the score
of every later overlapping candidate. -/
def nmsFuel (iou_threshold : ℚ) : Nat → List Candidate → List Candidate
  | _, [] => []
  | 0, l => l
  | fuel + 1, c :: cs =>
    if c.score = 0 then c :: nmsFuel iou_threshold fuel cs
    else c :: nmsFuel iou_threshold fuel (suppress iou_threshold c.box cs)

/-- Non-maximum suppression over the sorted candidate list. -/
def nms (iou_threshold : ℚ) (l : List Candidate) : List Candidate :=
  nmsFuel iou_threshold (listLen l) l

/-- Default for the (unreachable) out-of-range label lookup. -/
def emptyLabel : String := ""

/-- One row of the final `result` list:
`[classes[class_id], box[0], box[1], box[2], box[3], prob]`. -/
def mkDetection (c : Candidate) : Detection :=
  ⟨classes.getD c.classId emptyLabel, c.box.x, c.box.y, c.box.w, c.box.h, c.score⟩

/-- `get_candidate_objects(output, img_size)` of the source: filter the
score tensor at `threshold = 0.2`, order by descending score
(`np.argsort(...)[::-1]`, modelled as a stable ascending sort followed by
reversal), run greedy NMS at `iou_threshold = 0.5`, drop the zeroed
candidates and map the survivors to labeled detections. -/
def get_candidate_objects (output : List ℚ) (img_size : ℚ × ℚ) :
    Except YoloErr (List Detection) :=
  let threshold : ℚ := qDiv 1 5
  let iou_threshold : ℚ := qDiv 1 2
  match parse_yolo_output output img_size with
  | .error e => .error e
  | .ok bp =>
    let cands := filterCandidates bp.2.1 bp.1 threshold
    let sorted := (List.insertionSort candLE cands).reverse
    let kept := (nms iou_threshold sorted).filter fun c => decide (0 < c.score)
    .ok (kept.map mkDetection)

/-- The layout-decoding prefix of `parse_yolo_output` with the source's
hard-coded constants `S = 7`, `C = 20`, `B = 2` lifted to parameters (the
spec's `decode(raw, S, C, B)` contract): slice the flat buffer into the
class-probability, confidence and geometry regions and reshape each to its
expected size. -/
def decode (S C B : Nat) (output : List ℚ) :
    Except YoloErr (List ℚ × List ℚ × List ℚ) :=
  let sc_offset := S * S * C
  let box_offset := sc_offset + S * S * B
  match npReshape (output.take sc_offset) sc_offset with
  | .error e => .error e
  | .ok class_probs =>
    match npReshape ((output.drop sc_offset).take (S * S * B)) (S * S * B) with
    | .error e => .error e
    | .ok confidences =>
      match npReshape (output.drop box_offset) (S * S * B * 4) with
      | .error e => .error e
      | .ok geometry => .ok (class_probs, confidences, geometry)

/-- Relation between a candidate list and its state after a suppression
pass: every entry is either untouched or had its score zeroed. -/
def SameOrZeroed (a b : Candidate) : Prop := b = a ∨ b.score = 0

/-! Concrete input buffers.  Layout for `S = 7`, `C = 20`, `B = 2`:
class probabilities at flat `(row * 7 + col) * 20 + class`, confidences at
`980 + (row * 7 + col) * 2 + b`, geometry at
`1078 + ((row * 7 + col) * 2 + b) * 4 + component`. -/

/-- The buffer of the spec's concrete scenario: class probability 1 at
`(3,3,14)` (flat 494), confidence 1 at `(3,3,0)` (flat 1028), geometry
`(0.5, 0.5, 0.1, 0.1)` at cell `(3,3)` box 0 (flat 1270..1273). -/
def cbuf : List ℚ :=
  (List.range 1470).map fun i =>
    if i = 494 then 1
    else if i = 1028 then 1
    else if i = 1270 then qDiv 1 2
    else if i = 1271 then qDiv 1 2
    else if i = 1272 then qDiv 1 10
    else if i = 1273 then qDiv 1 10
    else 0

/-- A buffer that makes two classes of the same cell/box pass the filter:
class probabilities 0.5 at `(0,0,0)` (flat 0) and 1 at `(0,0,1)` (flat 1),
confidence 1 at `(0,0,0)` (flat 980), geometry `(0.5, 0.5, 0.5, 0.5)` at
cell `(0,0)` box 0 (flat 1078..1081). -/
def c3buf : List ℚ :=
  (List.range 1470).map fun i =>
    if i = 0 then qDiv 1 2
    else if i = 1 then 1
    else if i = 980 then 1
    else if 1078 ≤ i ∧ i ≤ 1081 then qDiv 1 2
    else 0

/-- A buffer producing two equal-score candidates in different cells with
identical resolved geometry: class probability 1 at `(0,0,0)` (flat 0) and
at `(0,1,5)` (flat 25), confidences 1 at `(0,0,0)` (flat 980) and
`(0,1,0)` (flat 982), geometry `(0.5, 0.5, 0.5, 0.5)` at cell `(0,0)` box 0
and `(-0.5, 0.5, 0.5, 0.5)` at cell `(0,1)` box 0 — both resolve to the
box `(50, 50, 175, 175)` at image size 700×700. -/
def cbuf4 : List ℚ :=
  (List.range 1470).map fun i =>
    if i = 0 then 1
    else if i = 25 then 1
    else if i = 980 then 1
    else if i = 982 then 1
    else if 1078 ≤ i ∧ i ≤ 1081 then qDiv 1 2
    else if i = 1086 then qDiv (-1) 2
    else if 1087 ≤ i ∧ i ≤ 1089 then qDiv 1 2
    else 0

/-- A small geometry region shaped `(7, 7, 1, 4)`: raw geometry
`(0.5, 0.5, 0.1, 0.1)` at cell `(0,0)`, zeros elsewhere. -/
def wgeo : List ℚ :=
  (List.range 196).map fun i =>
    if i = 0 then qDiv 1 2
    else if i = 1 then qDiv 1 2
    else if i = 2 then qDiv 1 10
    else if i = 3 then qDiv 1 10
    else 0

/-! ## Bridge lemmas between the kernel-computable arithmetic and `ℚ` -/

theorem qAdd_eq (a b : ℚ) : qAdd a b = a + b := by
  unfold qAdd
  rw [Rat.divInt_eq_div]
  push_cast
  conv_rhs => rw [← Rat.num_div_den a, ← Rat.num_div_den b]
  rw [div_add_div _ _ (by exact_mod_cast a.den_pos.ne') (by exact_mod_cast b.den_pos.ne')]
  ring_nf

theorem qMul_eq (a b : ℚ) : qMul a b = a * b := by
  unfold qMul
  rw [Rat.divInt_eq_div]
  push_cast
  conv_rhs => rw [← Rat.num_div_den a, ← Rat.num_div_den b]
  rw [div_mul_div_comm]

theorem qSub_eq (a b : ℚ) : qSub a b = a - b := by
  unfold qSub
  rw [Rat.divInt_eq_div]
  push_cast
  conv_rhs => rw [← Rat.num_div_den a, ← Rat.num_div_den b]
  rw [div_sub_div _ _ (by exact_mod_cast a.den_pos.ne') (by exact_mod_cast b.den_pos.ne')]
  ring_nf

theorem qDiv_eq (a b : ℚ) : qDiv a b = a / b := by
  unfold qDiv
  rcases eq_or_ne b 0 with rfl | hb
  · norm_num
  · rw [Rat.divInt_eq_div]
    push_cast
    conv_rhs => rw [← Rat.num_div_den a, ← Rat.num_div_den b]
    rw [div_div_div_eq]

theorem qDiv_zero (a : ℚ) : qDiv a 0 = 0 := by
  rw [qDiv_eq]
  exact div_zero a

theorem lenAcc_eq {α : Type} (l : List α) : ∀ n, lenAcc n l = n + l.length := by
  induction l with
  | nil => intro n; simp [lenAcc]
  | cons x xs ih => intro n; simp [lenAcc, ih]; omega

theorem listLen_eq {α : Type} (l : List α) : listLen l = l.length := by
  simp [listLen, lenAcc_eq]

/-! ## List helper lemmas -/

theorem mapWithIdx_get? (f : Nat → ℚ → ℚ) :
    ∀ (l : List ℚ) (n i : Nat),
      (mapWithIdx f n l).get? i = (l.get? i).map fun v => f (n + i) v := by
  intro l
  induction l with
  | nil => intro n i; simp [mapWithIdx]
  | cons v vs ih =>
    intro n i
    cases i with
    | zero => simp [mapWithIdx]
    | succ j =>
      rw [show n + (j + 1) = n + 1 + j by omega]
      simpa [mapWithIdx] using ih (n + 1) j

theorem mapWithIdx_length (f : Nat → ℚ → ℚ) :
    ∀ (l : List ℚ) (n : Nat), (mapWithIdx f n l).length = l.length := by
  intro l
  induction l with
  | nil => intro n; rfl
  | cons v vs ih => intro n; simp [mapWithIdx, ih]

theorem transformGeom_length (S B : Nat) (wI hI : ℚ) (g : List ℚ) :
    (transformGeom S B wI hI g).length = g.length := by
  simp [transformGeom, mapWithIdx_length]

theorem get?_cons4 {α : Type} (a b c d : α) (l : List α) (n : Nat) :
    (a :: b :: c :: d :: l).get? (n + 4) = l.get? n := rfl

theorem toBoxes_get? :
    ∀ (k : Nat) (l : List ℚ) (x y w h : ℚ),
      l.get? (4 * k) = some x → l.get? (4 * k + 1) = some y →
      l.get? (4 * k + 2) = some w → l.get? (4 * k + 3) = some h →
      (toBoxes l).get? k = some ⟨x, y, w, h⟩ := by
  intro k
  induction k with
  | zero =>
    intro l x y w h hx hy hw hh
    match l with
    | [] => simp at hx
    | [a] => simp at hy
    | [a, b] => simp at hw
    | [a, b, c] => simp at hh
    | a :: b :: c :: d :: rest =>
      simp at hx hy hw hh
      subst hx; subst hy; subst hw; subst hh
      rfl
  | succ j ih =>
    intro l x y w h hx hy hw hh
    match l with
    | [] => simp at hx
    | [a] =>
      rw [List.get?_eq_none.mpr (by simp; omega)] at hx
      cases hx
    | [a, b] =>
      rw [List.get?_eq_none.mpr (by simp; omega)] at hx
      cases hx
    | [a, b, c] =>
      rw [List.get?_eq_none.mpr (by simp; omega)] at hx
      cases hx
    | a :: b :: c :: d :: rest =>
      rw [show 4 * (j + 1) = 4 * j + 4 by omega, get?_cons4] at hx
      rw [show 4 * (j + 1) + 1 = (4 * j + 1) + 4 by omega, get?_cons4] at hy
      rw [show 4 * (j + 1) + 2 = (4 * j + 2) + 4 by omega, get?_cons4] at hw
      rw [show 4 * (j + 1) + 3 = (4 * j + 3) + 4 by omega, get?_cons4] at hh
      have := ih rest x y w h hx hy hw hh
      simpa [toBoxes] using this

/-- C2: for every cell `(row, col)`, box index `b` and raw components
`(rx, ry, rw, rh)` read from the geometry region, the resolved box is
`cx = (rx + col) / 7 * imageWidth`, `cy = (ry + row) / 7 * imageHeight`,
`w = rw² * imageWidth`, `h = rh² * imageHeight` — the column offset goes to
the x-component and the row offset to the y-component (not swapped), and
sizes are squared, never square-rooted.  (`7` is the program's grid size
`S`; the source divides by the literal `7.0`.) -/
theorem c2_box_resolution (g : List ℚ) (img_size : ℚ × ℚ) (B : Nat)
    (hlen : g.length = 7 * 7 * B * 4)
    (row col b : Nat) (hrow : row < 7) (hcol : col < 7) (hb : b < B)
    (rx ry rw rh : ℚ)
    (hx : g.get? (4 * ((row * 7 + col) * B + b)) = some rx)
    (hy : g.get? (4 * ((row * 7 + col) * B + b) + 1) = some ry)
    (hw : g.get? (4 * ((row * 7 + col) * B + b) + 2) = some rw)
    (hh : g.get? (4 * ((row * 7 + col) * B + b) + 3) = some rh) :
    (get_boxes g img_size 7 B).map (fun r => r.1.get? ((row * 7 + col) * B + b)) =
      .ok (some ⟨(rx + (col : ℚ)) / 7 * img_size.2, (ry + (row : ℚ)) / 7 * img_size.1,
        rw * rw * img_size.2, rh * rh * img_size.1⟩) := by
  have hB : 0 < B := Nat.pos_of_ne_zero (by omega)
  set k := (row * 7 + col) * B + b with hk
  have hcell : k / B = row * 7 + col := by
    rw [hk, show (row * 7 + col) * B + b = B * (row * 7 + col) + b by ring,
      Nat.mul_add_div hB, Nat.div_eq_of_lt hb, Nat.add_zero]
  have e0 : 4 * k / 4 = k := by omega
  have e1 : (4 * k + 1) / 4 = k := by omega
  have e2 : (4 * k + 2) / 4 = k := by omega
  have e3 : (4 * k + 3) / 4 = k := by omega
  have m0 : 4 * k % 4 = 0 := by omega
  have m1 : (4 * k + 1) % 4 = 1 := by omega
  have m2 : (4 * k + 2) % 4 = 2 := by omega
  have m3 : (4 * k + 3) % 4 = 3 := by omega
  have hcol2 : (row * 7 + col) % 7 = col := by omega
  have hrow2 : (row * 7 + col) / 7 = row := by omega
  have hok : npReshape g (7 * 7 * B * 4) = .ok g := by
    unfold npReshape
    rw [listLen_eq, if_pos hlen]
  have ht0 : (transformGeom 7 B img_size.2 img_size.1 g).get? (4 * k) =
      some (qMul (qDiv (qAdd rx ((col : Nat) : ℚ)) 7) img_size.2) := by
    simp only [transformGeom, mapWithIdx_get?, Nat.zero_add, hx, Option.map_some']
    simp only [m0, e0, hcell, hcol2, hrow2]
    norm_num
  have ht1 : (transformGeom 7 B img_size.2 img_size.1 g).get? (4 * k + 1) =
      some (qMul (qDiv (qAdd ry ((row : Nat) : ℚ)) 7) img_size.1) := by
    simp only [transformGeom, mapWithIdx_get?, Nat.zero_add, hy, Option.map_some']
    simp only [m1, e1, hcell, hcol2, hrow2]
    norm_num
  have ht2 : (transformGeom 7 B img_size.2 img_size.1 g).get? (4 * k + 2) =
      some (qMul (qMul rw rw) img_size.2) := by
    simp only [transformGeom, mapWithIdx_get?, Nat.zero_add, hw, Option.map_some']
    simp only [m2, e2]
    norm_num
  have ht3 : (transformGeom 7 B img_size.2 img_size.1 g).get? (4 * k + 3) =
      some (qMul (qMul rh rh) img_size.1) := by
    simp only [transformGeom, mapWithIdx_get?, Nat.zero_add, hh, Option.map_some']
    simp only [m3, e3]
    norm_num
  have hbox := toBoxes_get? k (transformGeom 7 B img_size.2 img_size.1 g) _ _ _ _ ht0 ht1 ht2 ht3
  unfold get_boxes
  rw [hok]
  show Except.ok ((toBoxes (transformGeom 7 B img_size.2 img_size.1 g)).get? k) = _
  rw [hbox]
  simp [qAdd_eq, qDiv_eq, qMul_eq]

/-- C7: for any `S, C, B ≥ 1`, decoding succeeds iff the buffer length is
exactly `S*S*C + S*S*B + S*S*B*4`; any shorter or longer buffer fails with
`ShapeMismatch` (the typed stand-in for numpy's reshape `ValueError`) —
no truncation, no best-effort reshape. -/
theorem c7_shape_invariant (S C B : Nat) (hS : 1 ≤ S) (hC : 1 ≤ C) (hB : 1 ≤ B)
    (out : List ℚ) :
    ((∃ v, decode S C B out = .ok v) ↔
      out.length = S * S * C + S * S * B + S * S * B * 4) ∧
    (out.length ≠ S * S * C + S * S * B + S * S * B * 4 →
      decode S C B out = .error .ShapeMismatch) := by
  by_cases htot : out.length = S * S * C + S * S * B + S * S * B * 4
  · have h1 : listLen (out.take (S * S * C)) = S * S * C := by
      rw [listLen_eq, List.length_take, min_eq_left (by omega)]
    have h2 : listLen ((out.drop (S * S * C)).take (S * S * B)) = S * S * B := by
      rw [listLen_eq, List.length_take, List.length_drop, min_eq_left (by omega)]
    have h3 : listLen (out.drop (S * S * C + S * S * B)) = S * S * B * 4 := by
      rw [listLen_eq, List.length_drop]
      omega
    refine ⟨⟨fun _ => htot, fun _ =>
      ⟨(out.take (S * S * C), (out.drop (S * S * C)).take (S * S * B),
        out.drop (S * S * C + S * S * B)), ?_⟩⟩, fun hne => absurd htot hne⟩
    simp only [decode, npReshape]
    rw [if_pos h1, if_pos h2, if_pos h3]
  · refine ⟨⟨fun hv => ?_, fun h => absurd h htot⟩, fun _ => ?_⟩
    · obtain ⟨v, hv⟩ := hv
      by_contra
      simp only [decode, npReshape] at hv
      rcases Nat.lt_or_ge out.length (S * S * C) with hL | hL
      · rw [if_neg (by rw [listLen_eq, List.length_take, min_eq_right hL.le]; omega)] at hv
        cases hv
      · rcases Nat.lt_or_ge out.length (S * S * C + S * S * B) with hL2 | hL2
        · rw [if_pos (by rw [listLen_eq, List.length_take, min_eq_left hL])] at hv
          rw [if_neg (by
            rw [listLen_eq, List.length_take, List.length_drop, min_eq_right (by omega)]
            omega)] at hv
          cases hv
        · rw [if_pos (by rw [listLen_eq, List.length_take, min_eq_left hL])] at hv
          rw [if_pos (by
            rw [listLen_eq, List.length_take, List.length_drop, min_eq_left (by omega)])] at hv
          rw [if_neg (by rw [listLen_eq, List.length_drop]; omega)] at hv
          cases hv
    · simp only [decode, npReshape]
      rcases Nat.lt_or_ge out.length (S * S * C) with hL | hL
      · rw [if_neg (by rw [listLen_eq, List.length_take, min_eq_right hL.le]; omega)]
      · rcases Nat.lt_or_ge out.length (S * S * C + S * S * B) with hL2 | hL2
        · rw [if_pos (by rw [listLen_eq, List.length_take, min_eq_left hL])]
          rw [if_neg (by
            rw [listLen_eq, List.length_take, List.length_drop, min_eq_right (by omega)]
            omega)]
        · rw [if_pos (by rw [listLen_eq, List.length_take, min_eq_left hL])]
          rw [if_pos (by
            rw [listLen_eq, List.length_take, List.length_drop, min_eq_left (by omega)])]
          rw [if_neg (by rw [listLen_eq, List.length_drop]; omega)]

/-! ## Suppression lemmas -/

theorem suppress_pointwise (thr : ℚ) (bx : Box) :
    ∀ cs : List Candidate, List.Forall₂ SameOrZeroed cs (suppress thr bx cs) := by
  intro cs
  induction cs with
  | nil => exact List.Forall₂.nil
  | cons c cs ih =>
    simp only [suppress, List.map_cons]
    refine List.Forall₂.cons ?_ ?_
    · unfold SameOrZeroed
      by_cases h : thr < iou bx c.box <;> simp [h]
    · simpa only [suppress] using ih

theorem sameOrZeroed_trans : ∀ {l1 l2 l3 : List Candidate},
    List.Forall₂ SameOrZeroed l1 l2 → List.Forall₂ SameOrZeroed l2 l3 →
    List.Forall₂ SameOrZeroed l1 l3 := by
  intro l1 l2 l3 h12
  induction h12 generalizing l3 with
  | nil => intro h23; cases h23; exact .nil
  | cons hab _ ih =>
    intro h23
    cases h23 with
    | cons hbc h2 =>
      refine .cons ?_ (ih h2)
      rcases hbc with rfl | hz
      · exact hab
      · exact Or.inr hz

theorem nmsFuel_pointwise (thr : ℚ) :
    ∀ (fuel : Nat) (l : List Candidate), l.length ≤ fuel →
      List.Forall₂ SameOrZeroed l (nmsFuel thr fuel l) := by
  intro fuel
  induction fuel with
  | zero =>
    intro l hl
    have : l = [] := List.length_eq_zero.mp (Nat.le_zero.mp hl)
    subst this
    exact .nil
  | succ n ih =>
    intro l hl
    match l with
    | [] => exact .nil
    | c :: cs =>
      show List.Forall₂ SameOrZeroed (c :: cs)
        (if c.score = 0 then c :: nmsFuel thr n cs
         else c :: nmsFuel thr n (suppress thr c.box cs))
      have hcs : cs.length ≤ n := by simp at hl; omega
      by_cases hc : c.score = 0
      · rw [if_pos hc]
        exact .cons (Or.inl rfl) (ih cs hcs)
      · rw [if_neg hc]
        refine .cons (Or.inl rfl)
          (sameOrZeroed_trans (suppress_pointwise thr c.box cs) (ih (suppress thr c.box cs) ?_))
        simpa [suppress] using hcs

theorem filter_pos_sublist : ∀ {l lp : List Candidate},
    List.Forall₂ SameOrZeroed l lp →
    List.Sublist (lp.filter fun c => decide (0 < c.score)) l := by
  intro l lp h
  induction h with
  | nil => simp
  | @cons a b as bs hab _ ih =>
    by_cases hb : 0 < b.score
    · have hba : b = a := by
        rcases hab with h1 | h2
        · exact h1
        · exact absurd h2 hb.ne'
      rw [List.filter_cons, if_pos (by simpa using hb)]
      rw [hba]
      exact ih.cons₂ a
    · rw [List.filter_cons, if_neg (by simpa using hb)]
      exact ih.cons a

theorem nms_filter_sublist (thr : ℚ) (l : List Candidate) :
    List.Sublist ((nms thr l).filter fun c => decide (0 < c.score)) l := by
  unfold nms
  rw [listLen_eq]
  exact filter_pos_sublist (nmsFuel_pointwise thr l.length l le_rfl)

/-- Reduction of `get_candidate_objects` once the parse result is known. -/
theorem get_candidate_objects_ok (out : List ℚ) (img : ℚ × ℚ)
    (t : List Box × List ℚ × List ℚ) (hp : parse_yolo_output out img = .ok t) :
    get_candidate_objects out img = .ok
      (((nms (qDiv 1 2) ((List.insertionSort candLE
        (filterCandidates t.2.1 t.1 (qDiv 1 5))).reverse)).filter
          fun c => decide (0 < c.score)).map mkDetection) := by
  unfold get_candidate_objects
  rw [hp]

theorem get_candidate_objects_error (out : List ℚ) (img : ℚ × ℚ)
    (e : YoloErr) (hp : parse_yolo_output out img = .error e) :
    get_candidate_objects out img = .error e := by
  unfold get_candidate_objects
  rw [hp]

/-- C8: the returned detections are at most the thresholded candidates in
number, and every surviving detection is exactly one of the pre-suppression
candidates mapped to a detection — same score and box values; suppression
only removes entries, never alters them. -/
theorem c8_suppression_only_removes (out : List ℚ) (img : ℚ × ℚ) (dets : List Detection)
    (h : get_candidate_objects out img = .ok dets) :
    ∃ t, parse_yolo_output out img = .ok t ∧
      dets.length ≤ (filterCandidates t.2.1 t.1 (qDiv 1 5)).length ∧
      ∀ d ∈ dets, ∃ c ∈ filterCandidates t.2.1 t.1 (qDiv 1 5), d = mkDetection c := by
  cases hp : parse_yolo_output out img with
  | error e =>
    rw [get_candidate_objects_error out img e hp] at h
    cases h
  | ok t =>
    rw [get_candidate_objects_ok out img t hp] at h
    injection h with h
    subst h
    refine ⟨t, rfl, ?_, ?_⟩
    · calc (((nms (qDiv 1 2) ((List.insertionSort candLE
            (filterCandidates t.2.1 t.1 (qDiv 1 5))).reverse)).filter
              fun c => decide (0 < c.score)).map mkDetection).length
          = ((nms (qDiv 1 2) ((List.insertionSort candLE
            (filterCandidates t.2.1 t.1 (qDiv 1 5))).reverse)).filter
              fun c => decide (0 < c.score)).length := by
            rw [List.length_map]
        _ ≤ ((List.insertionSort candLE
            (filterCandidates t.2.1 t.1 (qDiv 1 5))).reverse).length :=
            (nms_filter_sublist _ _).length_le
        _ = (filterCandidates t.2.1 t.1 (qDiv 1 5)).length := by
            rw [List.length_reverse, List.length_insertionSort]
    · intro d hd
      obtain ⟨c, hc, hcd⟩ := List.mem_map.mp hd
      refine ⟨c, ?_, hcd.symm⟩
      have hcs := (nms_filter_sublist (qDiv 1 2)
        ((List.insertionSort candLE (filterCandidates t.2.1 t.1 (qDiv 1 5))).reverse)).subset hc
      rw [List.mem_reverse] at hcs
      exact (List.perm_insertionSort candLE _).mem_iff.mp hcs

/-- C9: the returned detection sequence is sorted by score in
non-increasing order. -/
theorem c9_output_score_sorted (out : List ℚ) (img : ℚ × ℚ) (dets : List Detection)
    (h : get_candidate_objects out img = .ok dets) :
    List.Pairwise (fun d e : Detection => e.score ≤ d.score) dets := by
  cases hp : parse_yolo_output out img with
  | error e =>
    rw [get_candidate_objects_error out img e hp] at h
    cases h
  | ok t =>
    rw [get_candidate_objects_ok out img t hp] at h
    injection h with h
    subst h
    have hsorted : List.Pairwise (fun a b : Candidate => b.score ≤ a.score)
        ((List.insertionSort candLE (filterCandidates t.2.1 t.1 (qDiv 1 5))).reverse) := by
      rw [List.pairwise_reverse]
      exact List.sorted_insertionSort candLE _
    have hkept := List.Pairwise.sublist (nms_filter_sublist (qDiv 1 2) _) hsorted
    rw [List.pairwise_map]
    exact hkept

/-- C10: IoU is symmetric in its two box arguments. -/
theorem c10_iou_symmetric (box1 box2 : Box) : iou box1 box2 = iou box2 box1 := by
  have hI : iouIntersection box1 box2 = iouIntersection box2 box1 := by
    unfold iouIntersection
    simp only [qAdd_eq, qSub_eq, qMul_eq, qDiv_eq]
    rw [min_comm (box1.x + 1 / 2 * box1.w) (box2.x + 1 / 2 * box2.w),
      max_comm (box1.x - 1 / 2 * box1.w) (box2.x - 1 / 2 * box2.w),
      min_comm (box1.y + 1 / 2 * box1.h) (box2.y + 1 / 2 * box2.h),
      max_comm (box1.y - 1 / 2 * box1.h) (box2.y - 1 / 2 * box2.h)]
  unfold iou
  rw [hI]
  simp only [qSub_eq, qAdd_eq, qMul_eq, qDiv_eq]
  ring_nf

/-- C5 amended: the source's `iou` has no degeneracy guard — it is a total
function, and on a pair whose combined-area denominator is zero it divides
by zero anyway, returning the model value `0` (IEEE: a non-finite float)
instead of failing. -/
theorem c5_amended_unguarded_division (box1 box2 : Box)
    (h : qSub (qAdd (qMul box1.w box1.h) (qMul box2.w box2.h))
      (iouIntersection box1 box2) = 0) :
    iou box1 box2 = 0 := by
  unfold iou
  rw [h, qDiv_zero]

/-! ## argmax (first-true) characterization -/

theorem firstTrueIdx_spec :
    ∀ (l : List Bool) (i : Nat), firstTrueIdx l = some i →
      l.get? i = some true ∧ ∀ j, j < i → l.get? j = some false := by
  intro l
  induction l with
  | nil => intro i h; simp [firstTrueIdx] at h
  | cons bb bs ih =>
    intro i h
    cases bb with
    | true =>
      simp [firstTrueIdx] at h
      subst h
      exact ⟨rfl, fun j hj => absurd hj (Nat.not_lt_zero j)⟩
    | false =>
      simp only [firstTrueIdx, Option.map_eq_some'] at h
      obtain ⟨i2, hi2, rfl⟩ := h
      obtain ⟨h1, h2⟩ := ih i2 hi2
      refine ⟨by simpa using h1, ?_⟩
      intro j hj
      cases j with
      | zero => rfl
      | succ j2 => simpa using h2 j2 (by omega)

theorem firstTrueIdx_exists :
    ∀ (l : List Bool), true ∈ l → ∃ i, firstTrueIdx l = some i := by
  intro l
  induction l with
  | nil => intro h; simp at h
  | cons bb bs ih =>
    intro h
    cases bb with
    | true => exact ⟨0, rfl⟩
    | false =>
      have hbs : true ∈ bs := by simpa using h
      obtain ⟨i, hi⟩ := ih hbs
      exact ⟨i + 1, by simp [firstTrueIdx, hi]⟩

/-- C3 amended: every candidate built from a `(row, col, box)` slot carries
its slot's geometry and a score that passed the threshold, but its class id
is `np.argmax` of the slot's boolean pass-mask — i.e. the *least* class
index of that slot whose score meets the threshold — not necessarily the
class of the entry that produced the candidate.  (When several classes of
the same box pass at once, all of them yield candidates carrying that one
least class id, and the detections built from them are labeled with it.) -/
theorem c3_amended_argmax_least_passing_class (thr : ℚ) (ps : List ℚ) (bx : Box)
    (c : Candidate) (hc : c ∈ cellCandidates thr ps bx) :
    c.box = bx ∧ thr ≤ c.score ∧ (∃ j, ps.get? j = some c.score) ∧
    (∃ p, ps.get? c.classId = some p ∧ thr ≤ p) ∧
    (∀ j p, j < c.classId → ps.get? j = some p → p < thr) := by
  simp only [cellCandidates] at hc
  obtain ⟨p, hpf, hcp⟩ := List.mem_map.mp hc
  obtain ⟨hpmem, hpthr⟩ := List.mem_filter.mp hpf
  have hthr : thr ≤ p := of_decide_eq_true hpthr
  have htrue : true ∈ ps.map fun q => decide (thr ≤ q) :=
    List.mem_map.mpr ⟨p, hpmem, hpthr⟩
  obtain ⟨i, hi⟩ := firstTrueIdx_exists _ htrue
  have hcid : argmaxMask (ps.map fun q => decide (thr ≤ q)) = i := by
    simp [argmaxMask, hi]
  obtain ⟨hti, hbelow⟩ := firstTrueIdx_spec _ i hi
  rw [List.get?_map] at hti
  subst hcp
  simp only [hcid]
  obtain ⟨j, hj⟩ := List.mem_iff_get?.mp hpmem
  refine ⟨by trivial, hthr, ⟨j, hj⟩, ?_, ?_⟩
  · cases hpsi : ps.get? i with
    | none => rw [hpsi] at hti; cases hti
    | some q =>
      rw [hpsi] at hti
      simp only [Option.map_some'] at hti
      injection hti with hti
      exact ⟨q, rfl, of_decide_eq_true hti⟩
  · intro j2 p2 hj2 hp2
    have := hbelow j2 hj2
    rw [List.get?_map, hp2] at this
    simp only [Option.map_some'] at this
    injection this with this
    exact not_le.mp (of_decide_eq_false this)

/-- C4 amended: when exactly two candidates pass the filter with equal
scores and their boxes overlap beyond the IoU threshold, the candidate that
survives is the *later*-enumerated one: `np.argsort` ascending (stable)
followed by the `[::-1]` reversal puts the later tied candidate first, so
it suppresses the earlier one. -/
theorem c4_amended_later_tied_candidate_survives (out : List ℚ) (img : ℚ × ℚ)
    (a b : Candidate)
    (hcands : (parse_yolo_output out img).map
      (fun t => filterCandidates t.2.1 t.1 (qDiv 1 5)) = .ok [a, b])
    (hscore : a.score = b.score) (hpos : 0 < b.score)
    (hiou : qDiv 1 2 < iou b.box a.box) :
    get_candidate_objects out img = .ok [mkDetection b] := by
  cases hp : parse_yolo_output out img with
  | error e =>
    rw [hp] at hcands
    cases hcands
  | ok t =>
    rw [hp] at hcands
    simp only [Except.map, Except.ok.injEq] at hcands
    rw [get_candidate_objects_ok out img t hp, hcands]
    have hco : candLE a b := le_of_eq hscore
    have hsort : List.insertionSort candLE [a, b] = [a, b] := by
      simp [List.insertionSort, List.orderedInsert, if_pos hco]
    rw [hsort, show ([a, b] : List Candidate).reverse = [b, a] from by simp]
    have hb0 : ¬ b.score = 0 := hpos.ne'
    have hsup : suppress (qDiv 1 2) b.box [a] = [{ a with score := 0 }] := by
      simp [suppress, if_pos hiou]
    have hnms : nms (qDiv 1 2) [b, a] = [b, { a with score := 0 }] := by
      unfold nms
      rw [show listLen [b, a] = 1 + 1 from rfl]
      show (if b.score = 0 then b :: nmsFuel (qDiv 1 2) 1 [a]
        else b :: nmsFuel (qDiv 1 2) 1 (suppress (qDiv 1 2) b.box [a])) = _
      rw [if_neg hb0, hsup]
      show b :: (if ({ a with score := 0 } : Candidate).score = 0
        then { a with score := 0 } :: nmsFuel (qDiv 1 2) 0 []
        else { a with score := 0 } :: nmsFuel (qDiv 1 2) 0
          (suppress (qDiv 1 2) ({ a with score := 0 } : Candidate).box [])) = _
      rw [if_pos rfl]
      rfl
    rw [hnms]
    have hfil : ([b, { a with score := 0 }].filter fun c => decide (0 < c.score)) = [b] := by
      rw [List.filter_cons, if_pos (by simpa using hpos), List.filter_cons,
        if_neg (by simp)]
      rfl
    rw [hfil]
    rfl

/-- C6 amended: the pipeline mutates the caller's buffer through the numpy
reshape view: after `parse_yolo_output` the buffer has the same length and
an unchanged 1078-entry prefix (class probabilities and confidences), while
its geometry region now holds exactly the flattened resolved boxes that
`get_boxes` returned — not the raw values the caller passed in. -/
theorem c6_amended_geometry_written_in_place (out : List ℚ) (img : ℚ × ℚ)
    (hlen : out.length = 1470) :
    (parse_yolo_output out img).map (fun t => t.2.2.length) = .ok 1470 ∧
    (parse_yolo_output out img).map (fun t => t.2.2.take 1078) = .ok (out.take 1078) ∧
    (parse_yolo_output out img).map (fun t => toBoxes (t.2.2.drop 1078)) =
      (parse_yolo_output out img).map (fun t => t.1) := by
  have hc1 : listLen (out.take (7 * 7 * 20)) = 7 * 7 * 20 := by
    rw [listLen_eq, List.length_take, min_eq_left (by omega)]
  have hc2 : listLen ((out.drop (7 * 7 * 20)).take (7 * 7 * 2)) = 7 * 7 * 2 := by
    rw [listLen_eq, List.length_take, List.length_drop, min_eq_left (by omega)]
  have hc3 : listLen (out.drop (7 * 7 * 20 + 7 * 7 * 2)) = 7 * 7 * 2 * 4 := by
    rw [listLen_eq, List.length_drop]
    omega
  have hpar : parse_yolo_output out img = .ok
      (toBoxes (transformGeom 7 2 img.2 img.1 (out.drop (7 * 7 * 20 + 7 * 7 * 2))),
       fuseScores 20 2 (out.take (7 * 7 * 20)) ((out.drop (7 * 7 * 20)).take (7 * 7 * 2)),
       out.take (7 * 7 * 20 + 7 * 7 * 2) ++
         transformGeom 7 2 img.2 img.1 (out.drop (7 * 7 * 20 + 7 * 7 * 2))) := by
    simp only [parse_yolo_output, get_boxes, npReshape]
    rw [if_pos hc1, if_pos hc2, if_pos hc3]
  have hpre : (out.take (7 * 7 * 20 + 7 * 7 * 2)).length = 1078 := by
    rw [List.length_take, min_eq_left (by omega)]
  have htg : (transformGeom 7 2 img.2 img.1 (out.drop (7 * 7 * 20 + 7 * 7 * 2))).length = 392 := by
    rw [transformGeom_length, List.length_drop]
    omega
  refine ⟨?_, ?_, ?_⟩
  · rw [hpar]
    simp only [Except.map]
    rw [List.length_append, hpre, htg]
  · rw [hpar]
    simp only [Except.map]
    rw [List.take_left' hpre]
  · rw [hpar]
    simp only [Except.map]
    rw [List.drop_left' hpre]

/-! ## Concrete-input theorems and witnesses -/

/-- C1: on the spec's concrete scenario buffer (single class probability 1
at cell (3,3) class 14, single confidence 1 at cell (3,3) box 0, raw
geometry (0.5, 0.5, 0.1, 0.1) there, image size 700×700) the pipeline
returns exactly one detection: label `classes[14] = "person"`, center
(350, 350), width and height 7, score 1. -/
theorem c1_concrete_scenario :
    get_candidate_objects cbuf (700, 700) = .ok [⟨"person", 350, 350, 7, 7, 1⟩] := by
  decide

/-- C3 counterexample: on `c3buf` two classes of the same cell/box pass the
threshold — score-tensor entries `(0,0,0,0) = 1/2` (flat 0) and
`(0,0,0,1) = 1` (flat 1).  The code's `np.argmax(filter_mat_probs, axis=3)`
attaches class id 0 to *both* candidates, so the candidate produced by the
class-1 entry does not carry its own class id 1, and the surviving score-1
detection is labeled `classes[0] = "aeroplane"`, not `classes[1] =
"bicycle"` as the claim requires. -/
theorem c3_counterexample :
    (parse_yolo_output c3buf (700, 700)).map (fun t => t.2.1.take 2) =
      .ok [qDiv 1 2, 1] ∧
    (parse_yolo_output c3buf (700, 700)).map
        (fun t => filterCandidates t.2.1 t.1 (qDiv 1 5)) =
      .ok [⟨0, ⟨50, 50, 175, 175⟩, qDiv 1 2⟩, ⟨0, ⟨50, 50, 175, 175⟩, 1⟩] ∧
    get_candidate_objects c3buf (700, 700) =
      .ok [⟨"aeroplane", 50, 50, 175, 175, 1⟩] ∧
    classes.getD 1 emptyLabel = "bicycle" ∧
    ¬ ("aeroplane" = "bicycle") := by
  refine ⟨by decide, by decide, by decide, by decide, by decide⟩

/-- C4 counterexample: on `cbuf4` exactly two candidates pass the filter,
with identical score 1 and identical geometry (IoU 1 > 0.5).  The
earlier-enumerated candidate (cell (0,0), class 0, label "aeroplane") is
the one that gets suppressed: `np.argsort` ascending followed by `[::-1]`
puts the *later*-enumerated tied candidate first, so only the "bus"
detection survives — refuting the claim that the earlier-enumerated
candidate survives a tie. -/
theorem c4_counterexample :
    (parse_yolo_output cbuf4 (700, 700)).map
        (fun t => filterCandidates t.2.1 t.1 (qDiv 1 5)) =
      .ok [⟨0, ⟨50, 50, 175, 175⟩, 1⟩, ⟨5, ⟨50, 50, 175, 175⟩, 1⟩] ∧
    iou ⟨50, 50, 175, 175⟩ ⟨50, 50, 175, 175⟩ = 1 ∧
    get_candidate_objects cbuf4 (700, 700) =
      .ok [⟨"bus", 50, 50, 175, 175, 1⟩] := by
  refine ⟨by decide, by decide, by decide⟩

/-- C5 counterexample: for the zero-size box pair the combined-area
denominator of `iou` is zero, yet the source performs the division anyway
and yields a value (a non-finite float in IEEE terms, `0` in this rational
model) — there is no `DegenerateBox` failure in the code. -/
theorem c5_counterexample :
    iouIntersection ⟨0, 0, 0, 0⟩ ⟨0, 0, 0, 0⟩ = 0 ∧
    qSub (qAdd (qMul (0 : ℚ) 0) (qMul (0 : ℚ) 0))
      (iouIntersection ⟨0, 0, 0, 0⟩ ⟨0, 0, 0, 0⟩) = 0 ∧
    iou ⟨0, 0, 0, 0⟩ ⟨0, 0, 0, 0⟩ = 0 := by
  refine ⟨by decide, by decide, by decide⟩

/-- C6 counterexample: the geometry transform writes back through the
reshape view, so the caller's buffer is mutated: on `cbuf` the raw entry at
flat index 1270 (`rx = 0.5` of cell (3,3) box 0) reads `350` after the call
to `parse_yolo_output` — the resolved pixel x-center — no longer its
original value `0.5`. -/
theorem c6_counterexample :
    cbuf.get? 1270 = some (qDiv 1 2) ∧
    (parse_yolo_output cbuf (700, 700)).map (fun t => t.2.2.get? 1270) =
      .ok (some 350) ∧
    ¬ ((qDiv 1 2 : ℚ) = 350) := by
  refine ⟨by decide, by decide, by decide⟩

/-- Witness for `c2_box_resolution` at a concrete geometry region
(`B = 1`, cell `(0,0)`, box 0, raw `(0.5, 0.5, 0.1, 0.1)`). -/
theorem c2_box_resolution_witness :
    (get_boxes wgeo (700, 700) 7 1).map (fun r => r.1.get? ((0 * 7 + 0) * 1 + 0)) =
      .ok (some ⟨(qDiv 1 2 + ((0 : Nat) : ℚ)) / 7 * 700, (qDiv 1 2 + ((0 : Nat) : ℚ)) / 7 * 700,
        qDiv 1 10 * qDiv 1 10 * 700, qDiv 1 10 * qDiv 1 10 * 700⟩) :=
  c2_box_resolution wgeo (700, 700) 1 (by simp [wgeo]) 0 0 0 (by decide) (by decide) (by decide)
    (qDiv 1 2) (qDiv 1 2) (qDiv 1 10) (qDiv 1 10) (by decide) (by decide) (by decide) (by decide)

/-- Witness for `c3_amended_argmax_least_passing_class` at a concrete slot
(scores `[0.1, 0.5]`, threshold `0.2`: the candidate carries class id 1,
the least — and only — passing class). -/
theorem c3_amended_witness :
    (⟨1, ⟨1, 2, 3, 4⟩, qDiv 1 2⟩ : Candidate).box = ⟨1, 2, 3, 4⟩ ∧
    qDiv 1 5 ≤ (⟨1, ⟨1, 2, 3, 4⟩, qDiv 1 2⟩ : Candidate).score ∧
    (∃ j, [qDiv 1 10, qDiv 1 2].get? j =
      some (⟨1, ⟨1, 2, 3, 4⟩, qDiv 1 2⟩ : Candidate).score) ∧
    (∃ p, [qDiv 1 10, qDiv 1 2].get? (⟨1, ⟨1, 2, 3, 4⟩, qDiv 1 2⟩ : Candidate).classId =
      some p ∧ qDiv 1 5 ≤ p) ∧
    (∀ j p, j < (⟨1, ⟨1, 2, 3, 4⟩, qDiv 1 2⟩ : Candidate).classId →
      [qDiv 1 10, qDiv 1 2].get? j = some p → p < qDiv 1 5) :=
  c3_amended_argmax_least_passing_class (qDiv 1 5) [qDiv 1 10, qDiv 1 2] ⟨1, 2, 3, 4⟩
    ⟨1, ⟨1, 2, 3, 4⟩, qDiv 1 2⟩ (by decide)

/-- Witness for `c4_amended_later_tied_candidate_survives` on `cbuf4`. -/
theorem c4_amended_witness :
    get_candidate_objects cbuf4 (700, 700) =
      .ok [mkDetection ⟨5, ⟨50, 50, 175, 175⟩, 1⟩] :=
  c4_amended_later_tied_candidate_survives cbuf4 (700, 700)
    ⟨0, ⟨50, 50, 175, 175⟩, 1⟩ ⟨5, ⟨50, 50, 175, 175⟩, 1⟩
    (by decide) (by decide) (by decide) (by decide)

/-- Witness for `c5_amended_unguarded_division` at a concrete degenerate
pair. -/
theorem c5_amended_witness : iou ⟨3, 4, 0, 0⟩ ⟨3, 4, 0, 0⟩ = 0 :=
  c5_amended_unguarded_division ⟨3, 4, 0, 0⟩ ⟨3, 4, 0, 0⟩ (by decide)

/-- Witness for `c6_amended_geometry_written_in_place` on `cbuf`. -/
theorem c6_amended_witness :
    (parse_yolo_output cbuf (700, 700)).map (fun t => t.2.2.length) = .ok 1470 ∧
    (parse_yolo_output cbuf (700, 700)).map (fun t => t.2.2.take 1078) =
      .ok (cbuf.take 1078) ∧
    (parse_yolo_output cbuf (700, 700)).map (fun t => toBoxes (t.2.2.drop 1078)) =
      (parse_yolo_output cbuf (700, 700)).map (fun t => t.1) :=
  c6_amended_geometry_written_in_place cbuf (700, 700) (by simp [cbuf])

/-- Witness for `c7_shape_invariant` at `S = C = B = 1` with a buffer of
the exact contracted length 6. -/
theorem c7_shape_invariant_witness :
    ((∃ v, decode 1 1 1 (List.replicate 6 (0 : ℚ)) = .ok v) ↔
      (List.replicate 6 (0 : ℚ)).length = 1 * 1 * 1 + 1 * 1 * 1 + 1 * 1 * 1 * 4) ∧
    ((List.replicate 6 (0 : ℚ)).length ≠ 1 * 1 * 1 + 1 * 1 * 1 + 1 * 1 * 1 * 4 →
      decode 1 1 1 (List.replicate 6 (0 : ℚ)) = .error .ShapeMismatch) :=
  c7_shape_invariant 1 1 1 (by decide) (by decide) (by decide) (List.replicate 6 (0 : ℚ))

/-- Witness for `c8_suppression_only_removes` on `cbuf`. -/
theorem c8_witness :
    ∃ t, parse_yolo_output cbuf (700, 700) = .ok t ∧
      ([(⟨"person", 350, 350, 7, 7, 1⟩ : Detection)]).length ≤
        (filterCandidates t.2.1 t.1 (qDiv 1 5)).length ∧
      ∀ d ∈ [(⟨"person", 350, 350, 7, 7, 1⟩ : Detection)],
        ∃ c ∈ filterCandidates t.2.1 t.1 (qDiv 1 5), d = mkDetection c :=
  c8_suppression_only_removes cbuf (700, 700) [⟨"person", 350, 350, 7, 7, 1⟩] (by decide)

/-- Witness for `c9_output_score_sorted` on `cbuf`. -/
theorem c9_witness :
    List.Pairwise (fun d e : Detection => e.score ≤ d.score)
      [(⟨"person", 350, 350, 7, 7, 1⟩ : Detection)] :=
  c9_output_score_sorted cbuf (700, 700) [⟨"person", 350, 350, 7, 7, 1⟩] (by decide)
